import Mathlib

/-!
Shallow embedding of `src/BeltGridClicker.py` (grid traversal and
humanized-timing engine) and verification of the frozen claims.

Conventions of the embedding:
* Screen coordinates captured by calibration are integers (`Point`).
* Derived cell sizes and click targets are exact rationals (`ℚ`); the
  Python source uses floats, but every claim about geometry is stated by
  the spec in exact arithmetic.
* Calls into external collaborators (pyautogui, random, time) are modelled
  as an environment of read/sample streams (`Env`) plus an emitted event
  trace (`Ev`), preserving the order in which the source performs them.
* `state["running"]` is shared mutable state that hotkey callbacks may
  flip at any moment; each of the three reads the loop body performs per
  iteration is therefore modelled as its own boolean stream.
* `state["p00"]` is likewise re-read by the loop body at every iteration
  (lines 271-272 of the source), so it is a per-iteration stream `p00At`;
  `pTR`/`pBL` streams are provided too so that (in)sensitivity of the
  in-flight run to mid-run calibration writes can be stated.
-/

/-- A captured screen coordinate (`pyautogui.position()` returns integers). -/
structure Point where
  x : Int
  y : Int
deriving DecidableEq

/-- The configuration dictionary `CFG` (already clamped by `load_config`). -/
structure Config where
  columns : Nat
  rows : Nat
  speed : Nat
  scan_order : Nat
deriving DecidableEq

/-- The process-wide `state` dict: three optional calibration points and
the running flag. -/
structure MacroState where
  p00 : Option Point
  pTR : Option Point
  pBL : Option Point
  running : Bool
deriving DecidableEq

/-- Source function `compute_cell_size` (lines 159-181): `None` when calibration is
incomplete or the computed extent is non-positive, otherwise
`(total_w / columns, total_h / rows)` in exact arithmetic. -/
def compute_cell_size (st : MacroState) (cfg : Config) : Option (ℚ × ℚ) :=
  match st.p00, st.pTR, st.pBL with
  | some p0, some pTr, some pBl =>
    let total_w : Int := pTr.x - p0.x
    let total_h : Int := pBl.y - p0.y
    if total_w ≤ 0 ∨ total_h ≤ 0 then none
    else some ((total_w : ℚ) / (cfg.columns : ℚ), (total_h : ℚ) / (cfg.rows : ℚ))
  | _, _, _ => none

/-- The un-jittered click target of cell `(r, c)` (source lines 271-272
without the two `random.randint` jitter terms). -/
def cellCenter (p0 : Point) (cw ch : ℚ) (r c : Nat) : ℚ × ℚ :=
  ((p0.x : ℚ) + (c : ℚ) * cw + cw / 2, (p0.y : ℚ) + (r : ℚ) * ch + ch / 2)

/-- Column-major visitation sequence (source line 253):
`[(r, c) for c in range(cols) for r in range(rows)]`. -/
def colMajorSeq (cols rows : Nat) : List (Nat × Nat) :=
  (List.range cols).flatMap (fun c => (List.range rows).map (fun r => (r, c)))

/-- Row-major visitation sequence (source lines 256 and 259):
`[(r, c) for r in range(rows) for c in range(cols)]`. -/
def rowMajorSeq (cols rows : Nat) : List (Nat × Nat) :=
  (List.range rows).flatMap (fun r => (List.range cols).map (fun c => (r, c)))

/-- Swap the entries at positions `i` and `j` (a single iteration of
the CPython `random.shuffle` loop body: `x[i], x[j] = x[j], x[i]`). -/
def swapIdx (l : List α) (i j : Nat) : List α :=
  match l[i]?, l[j]? with
  | some a, some b => (l.set i b).set j a
  | _, _ => l

/-- The loop of CPython `random.shuffle`:
`for i in reversed(range(1, len(x))): j = randbelow(i+1); swap`.
The counter argument `n` means the remaining values `i = n, n-1, ..., 1`;
`g` is the stream of raw random draws, reduced mod `i+1` so that
`j ∈ [0, i]` exactly as `randbelow(i+1)` guarantees. -/
def shuffleGo (g : Nat → Nat) : List α → Nat → List α
  | l, 0 => l
  | l, n + 1 => shuffleGo g (swapIdx l (n + 1) (g (n + 1) % (n + 2))) n

/-- CPython `random.shuffle` (Fisher-Yates) on a list, driven by draw stream `g`. -/
def shuffle (g : Nat → Nat) (l : List α) : List α :=
  shuffleGo g l (l.length - 1)

/-- The `sequence` list built by `run_macro` (source lines 251-260). -/
def planSeq (cols rows order : Nat) (g : Nat → Nat) : List (Nat × Nat) :=
  if order = 1 then colMajorSeq cols rows
  else if order = 2 then rowMajorSeq cols rows
  else shuffle g (rowMajorSeq cols rows)

/-- Observable events of one `run_macro` invocation, in source order. -/
inductive Ev where
  /-- Models `time.sleep(START_DELAY)` (line 242). -/
  | sleepStart
  /-- A write to `state["running"]` (lines 245 and 305). -/
  | setRunning (b : Bool)
  /-- Models `pag.keyDown` of shift (line 246). -/
  | keyDown
  /-- Models `pag.keyUp` of shift (line 304). -/
  | keyUp
  /-- Models `pag.moveTo` (line 274). -/
  | move (x y : ℚ)
  /-- Models `pag.click` (line 275). -/
  | click
  /-- Models the per-click `human_delay` sleep (line 279). -/
  | sleepDelay
  /-- Burst rest `time.sleep(random.uniform(BURST_REST_MIN, ...))` (line 283). -/
  | sleepBurst
  /-- Unit rest `time.sleep(random.uniform(UNIT_REST_MIN, ...))` (lines 293/297). -/
  | sleepUnit
deriving DecidableEq

/-- The environment of one run: per-iteration reads of the shared mutable
state and samples drawn from the random collaborator.  `topFlag i`,
`burstFlag i` and `unitFlag i` are the values of `state["running"]` at the
three reads iteration `i` performs (lines 267, 282, 289); `p00At i`,
`pTRAt i`, `pBLAt i` are the values the calibration entries of `state`
hold while iteration `i` executes; `jx i`/`jy i` are the two jitter draws
of iteration `i`; `burst0` and `burstStep i` are the `randint(BURST_MIN,
BURST_MAX)` draws (lines 263 and 284); `failAt i` says whether the
pointer collaborator raises during the `moveTo`/`click` of iteration `i`. -/
structure Env where
  topFlag : Nat → Bool
  burstFlag : Nat → Bool
  unitFlag : Nat → Bool
  p00At : Nat → Point
  pTRAt : Nat → Point
  pBLAt : Nat → Point
  jx : Nat → Int
  jy : Nat → Int
  burst0 : Nat
  burstStep : Nat → Nat
  failAt : Nat → Bool

/-- The click loop of `run_macro` (source lines 266-300), recursing over
the remaining sequence.  Arguments after the environment/snapshot data:
current iteration index, current `clicks`, current `next_burst_at`, and
the remaining `sequence` suffix.  Returns the final `clicks`, the events
this loop emitted, and whether the pointer collaborator raised. -/
def clickLoop (env : Env) (cw ch : ℚ) (order : Nat) :
    Nat → Nat → Nat → List (Nat × Nat) → Nat × List Ev × Bool
  | _, clicks, _, [] => (clicks, [], false)
  | idx, clicks, nba, (r, c) :: rest =>
    if env.topFlag idx = false then (clicks, [], false)
    else if env.failAt idx = true then (clicks, [], true)
    else
      let p := env.p00At idx
      let x : ℚ := (cellCenter p cw ch r c).1 + (env.jx idx : ℚ)
      let y : ℚ := (cellCenter p cw ch r c).2 + (env.jy idx : ℚ)
      let clicks1 := clicks + 1
      let doBurst : Bool := decide (nba ≤ clicks1) && env.burstFlag idx
      let nba1 := if doBurst = true then clicks1 + env.burstStep idx else nba
      let unitEnd : Bool :=
        if order = 1 then
          match rest with
          | [] => true
          | (_, c2) :: _ => decide (c2 ≠ c)
        else if order = 2 then
          match rest with
          | [] => true
          | (r2, _) :: _ => decide (r2 ≠ r)
        else false
      let doUnit : Bool := env.unitFlag idx && unitEnd
      let res := clickLoop env cw ch order (idx + 1) clicks1 nba1 rest
      (res.1,
        Ev.move x y :: Ev.click :: Ev.sleepDelay ::
          ((if doBurst = true then [Ev.sleepBurst] else []) ++
           (if doUnit = true then [Ev.sleepUnit] else []) ++ res.2.1),
        res.2.2)

/-- The outcome `run_macro` reports (via its log lines / early returns). -/
inductive RunResult where
  /-- Early return at line 223: `"Macro is already running"`. -/
  | alreadyRunning
  /-- Early return at line 227: calibration incomplete. -/
  | incompleteCalibration
  /-- Early return at line 232: cell size missing or degenerate. -/
  | badCellSize
  /-- Loop finished (completed or cancelled); `"Done. Total clicks: n"`. -/
  | done (clicks : Nat)
  /-- The pointer collaborator raised; the exception propagates after the
  `finally` block ran.  `clicks` is the count at that moment. -/
  | raised (clicks : Nat)
deriving DecidableEq

/-- Source function `run_macro` (lines 214-305).  Returns the reported outcome, the
emitted event trace, and the value of the shared `state` at exit (the
calibration entries as the loop last saw them are tracked by `Env`; the
function itself only writes `running`). -/
def run_macro (st : MacroState) (cfg : Config) (env : Env) (g : Nat → Nat) :
    RunResult × List Ev × MacroState :=
  if st.running = true then (RunResult.alreadyRunning, [], st)
  else
    match st.p00, st.pTR, st.pBL with
    | some _, some _, some _ =>
      match compute_cell_size st cfg with
      | none => (RunResult.badCellSize, [], st)
      | some (cw, ch) =>
        if cw = 0 ∨ ch = 0 then (RunResult.badCellSize, [], st)
        else
          let seq := planSeq cfg.columns cfg.rows cfg.scan_order g
          let res := clickLoop env cw ch cfg.scan_order 0 0 env.burst0 seq
          ((if res.2.2 = true then RunResult.raised res.1 else RunResult.done res.1),
            Ev.sleepStart :: Ev.setRunning true :: Ev.keyDown ::
              res.2.1 ++ [Ev.keyUp, Ev.setRunning false],
            MacroState.mk st.p00 st.pTR st.pBL false)
    | _, _, _ => (RunResult.incompleteCalibration, [], st)

/-- Does an event record the `pag.click` call? -/
def Ev.isClick : Ev → Bool
  | Ev.click => true
  | _ => false

/-- Does an event record the `pag.moveTo` call? -/
def Ev.isMove : Ev → Bool
  | Ev.move _ _ => true
  | _ => false

/-- Does an event record the shift `pag.keyUp` call? -/
def Ev.isKeyUp : Ev → Bool
  | Ev.keyUp => true
  | _ => false

/-- Does an event record a unit-rest sleep? -/
def Ev.isUnitRest : Ev → Bool
  | Ev.sleepUnit => true
  | _ => false

/-- Pure count of unit rests over a visitation sequence: one for each
step whose successor (or the end of the sequence) changes the grouping
key of the scan order, mirroring the check at source lines 289-300. -/
def unitRestCount (order : Nat) : List (Nat × Nat) → Nat
  | [] => 0
  | [_] => if order = 1 ∨ order = 2 then 1 else 0
  | p :: q :: rest =>
    (if (order = 1 ∧ q.2 ≠ p.2) ∨ (order = 2 ∧ q.1 ≠ p.1) then 1 else 0) +
      unitRestCount order (q :: rest)

/-- The all-zero random draw stream. -/
def g0 : Nat → Nat := fun _ => 0

/-- Geometry example state from the spec: p00=(0,0), pTR=(240,0), pBL=(0,120). -/
def stGeo : MacroState :=
  MacroState.mk (some (Point.mk 0 0)) (some (Point.mk 240 0))
    (some (Point.mk 0 120)) false

/-- Geometry example config from the spec: 24 columns, 12 rows. -/
def cfgGeo : Config := Config.mk 24 12 1 1

/-- An invalid calibration: pTR.x = p00.x (zero width). -/
def stBad : MacroState :=
  MacroState.mk (some (Point.mk 0 0)) (some (Point.mk 0 5))
    (some (Point.mk 0 120)) false

/-- A small valid calibration for concrete runs: 4×4 px extent. -/
def stRun : MacroState :=
  MacroState.mk (some (Point.mk 0 0)) (some (Point.mk 4 0))
    (some (Point.mk 0 4)) false

/-- A 2×2 grid, speed 1, column-major scan. -/
def cfgRun : Config := Config.mk 2 2 1 1

/-- An environment for an undisturbed complete run: the running flag
stays set, p00 stays at (0,0), no jitter, first burst threshold far away,
and the pointer collaborator never raises. -/
def envAll : Env :=
  Env.mk (fun _ => true) (fun _ => true) (fun _ => true)
    (fun _ => Point.mk 0 0) (fun _ => Point.mk 4 0) (fun _ => Point.mk 0 4)
    (fun _ => 0) (fun _ => 0) 100 (fun _ => 100) (fun _ => false)

/-- Like `envAll` but the running flag is observed cleared from the
top-of-loop check of step 1 on (cancellation after one click). -/
def envCancel1 : Env :=
  Env.mk (fun i => decide (i = 0)) (fun _ => true) (fun _ => true)
    (fun _ => Point.mk 0 0) (fun _ => Point.mk 4 0) (fun _ => Point.mk 0 4)
    (fun _ => 0) (fun _ => 0) 100 (fun _ => 100) (fun _ => false)

/-- Like `envAll` but the pointer collaborator raises at step 0. -/
def envFail0 : Env :=
  Env.mk (fun _ => true) (fun _ => true) (fun _ => true)
    (fun _ => Point.mk 0 0) (fun _ => Point.mk 4 0) (fun _ => Point.mk 0 4)
    (fun _ => 0) (fun _ => 0) 100 (fun _ => 100) (fun i => decide (i = 0))

/-- A 2-column, 1-row grid scanned row-major (two steps). -/
def cfgWide : Config := Config.mk 2 1 1 2

/-- Calibration for `cfgWide`: 4 px wide, 2 px tall. -/
def stWide : MacroState :=
  MacroState.mk (some (Point.mk 0 0)) (some (Point.mk 4 0))
    (some (Point.mk 0 2)) false

/-- Undisturbed environment for `stWide`: p00 stays (0,0) throughout. -/
def envWideA : Env :=
  Env.mk (fun _ => true) (fun _ => true) (fun _ => true)
    (fun _ => Point.mk 0 0) (fun _ => Point.mk 4 0) (fun _ => Point.mk 0 2)
    (fun _ => 0) (fun _ => 0) 100 (fun _ => 100) (fun _ => false)

/-- Like `envWideA` but a calibration capture overwrites p00 with
(100,100) between step 0 and step 1, so the re-read of
`state["p00"]` at step 1 sees the new value. -/
def envWideB : Env :=
  Env.mk (fun _ => true) (fun _ => true) (fun _ => true)
    (fun i => if i = 0 then Point.mk 0 0 else Point.mk 100 100)
    (fun _ => Point.mk 4 0) (fun _ => Point.mk 0 2)
    (fun _ => 0) (fun _ => 0) 100 (fun _ => 100) (fun _ => false)

/-- A 1×1 grid and matching calibration (single click per run). -/
def cfgOne : Config := Config.mk 1 1 1 1

/-- Calibration for `cfgOne`: 1 px extent. -/
def stOne : MacroState :=
  MacroState.mk (some (Point.mk 0 0)) (some (Point.mk 1 0))
    (some (Point.mk 0 1)) false

/-- Undisturbed environment for `stOne`. -/
def envOne : Env :=
  Env.mk (fun _ => true) (fun _ => true) (fun _ => true)
    (fun _ => Point.mk 0 0) (fun _ => Point.mk 1 0) (fun _ => Point.mk 0 1)
    (fun _ => 0) (fun _ => 0) 100 (fun _ => 100) (fun _ => false)

/-- A state whose running flag is set: a run in its Running phase. -/
def stBusy : MacroState :=
  MacroState.mk (some (Point.mk 0 0)) (some (Point.mk 4 0))
    (some (Point.mk 0 4)) true

/-- Like `envWideA` but with different mid-run pTR/pBL histories
(captures overwriting pTR and pBL while the run is in flight). -/
def envWideC : Env :=
  Env.mk (fun _ => true) (fun _ => true) (fun _ => true)
    (fun _ => Point.mk 0 0) (fun _ => Point.mk 999 999) (fun _ => Point.mk 7 7)
    (fun _ => 0) (fun _ => 0) 100 (fun _ => 100) (fun _ => false)

/-! ### Geometry helper lemmas -/

theorem compute_cell_size_of_valid (st : MacroState) (cfg : Config)
    (p0 pTr pBl : Point)
    (hp : st.p00 = some p0) (ht : st.pTR = some pTr) (hb : st.pBL = some pBl)
    (hx : p0.x < pTr.x) (hy : p0.y < pBl.y) :
    compute_cell_size st cfg =
      some (((pTr.x - p0.x : Int) : ℚ) / (cfg.columns : ℚ),
            ((pBl.y - p0.y : Int) : ℚ) / (cfg.rows : ℚ)) := by
  obtain ⟨sp, stt, sbb, srun⟩ := st
  simp only at hp ht hb
  subst hp; subst ht; subst hb
  simp only [compute_cell_size]
  rw [if_neg]
  push_neg
  omega

theorem cellWidth_pos (p0 pTr : Point) (cfg : Config)
    (hx : p0.x < pTr.x) (hc : 1 ≤ cfg.columns) :
    0 < ((pTr.x - p0.x : Int) : ℚ) / (cfg.columns : ℚ) := by
  apply div_pos
  · have : (0 : Int) < pTr.x - p0.x := by omega
    exact_mod_cast this
  · have : 0 < cfg.columns := hc
    exact_mod_cast this

theorem cellHeight_pos (p0 pBl : Point) (cfg : Config)
    (hy : p0.y < pBl.y) (hr : 1 ≤ cfg.rows) :
    0 < ((pBl.y - p0.y : Int) : ℚ) / (cfg.rows : ℚ) := by
  apply div_pos
  · have : (0 : Int) < pBl.y - p0.y := by omega
    exact_mod_cast this
  · have : 0 < cfg.rows := hr
    exact_mod_cast this

/-- Under complete calibration with positive extents and positive grid
dimensions, `run_macro` reaches the click loop, and its result is
determined by `clickLoop` on the planned sequence with the snapshotted
cell size. -/
theorem run_macro_eq_loop (st : MacroState) (cfg : Config) (env : Env)
    (g : Nat → Nat) (p0 pTr pBl : Point)
    (hp : st.p00 = some p0) (ht : st.pTR = some pTr) (hb : st.pBL = some pBl)
    (hrun : st.running = false)
    (hx : p0.x < pTr.x) (hy : p0.y < pBl.y)
    (hc : 1 ≤ cfg.columns) (hr : 1 ≤ cfg.rows) :
    run_macro st cfg env g =
      ((if (clickLoop env (((pTr.x - p0.x : Int) : ℚ) / (cfg.columns : ℚ))
              (((pBl.y - p0.y : Int) : ℚ) / (cfg.rows : ℚ)) cfg.scan_order 0 0
              env.burst0 (planSeq cfg.columns cfg.rows cfg.scan_order g)).2.2 = true
          then RunResult.raised (clickLoop env
              (((pTr.x - p0.x : Int) : ℚ) / (cfg.columns : ℚ))
              (((pBl.y - p0.y : Int) : ℚ) / (cfg.rows : ℚ)) cfg.scan_order 0 0
              env.burst0 (planSeq cfg.columns cfg.rows cfg.scan_order g)).1
          else RunResult.done (clickLoop env
              (((pTr.x - p0.x : Int) : ℚ) / (cfg.columns : ℚ))
              (((pBl.y - p0.y : Int) : ℚ) / (cfg.rows : ℚ)) cfg.scan_order 0 0
              env.burst0 (planSeq cfg.columns cfg.rows cfg.scan_order g)).1),
        Ev.sleepStart :: Ev.setRunning true :: Ev.keyDown ::
          (clickLoop env (((pTr.x - p0.x : Int) : ℚ) / (cfg.columns : ℚ))
              (((pBl.y - p0.y : Int) : ℚ) / (cfg.rows : ℚ)) cfg.scan_order 0 0
              env.burst0 (planSeq cfg.columns cfg.rows cfg.scan_order g)).2.1
            ++ [Ev.keyUp, Ev.setRunning false],
        MacroState.mk st.p00 st.pTR st.pBL false) := by
  have hcs := compute_cell_size_of_valid st cfg p0 pTr pBl hp ht hb hx hy
  obtain ⟨sp, stt, sbb, srun⟩ := st
  simp only at hp ht hb hrun
  subst hp; subst ht; subst hb; subst hrun
  simp only [ run_macro, hcs]
  rw [if_neg, if_neg]
  · intro h
    rcases h with h | h
    · exact absurd h (ne_of_gt (cellWidth_pos p0 pTr cfg hx hc))
    · exact absurd h (ne_of_gt (cellHeight_pos p0 pBl cfg hy hr))
  · simp

/-! ### Claims C7, C8, C10: geometry -/

/-- C7: for every valid calibration, cellWidth = (pTR.x − p00.x)/columns
and cellHeight = (pBL.y − p00.y)/rows, and the un-jittered center of cell
(r, c) is (p00.x + c*cellWidth + cellWidth/2, p00.y + r*cellHeight +
cellHeight/2); for p00=(0,0), pTR=(240,0), pBL=(0,120), columns=24,
rows=12 this gives cellWidth=10, cellHeight=10, center of (0,0) = (5,5)
and center of (11,23) = (235,115). -/
theorem C7_cell_geometry :
    (∀ (st : MacroState) (cfg : Config) (p0 pTr pBl : Point),
      st.p00 = some p0 → st.pTR = some pTr → st.pBL = some pBl →
      p0.x < pTr.x → p0.y < pBl.y →
      compute_cell_size st cfg =
        some (((pTr.x - p0.x : Int) : ℚ) / (cfg.columns : ℚ),
              ((pBl.y - p0.y : Int) : ℚ) / (cfg.rows : ℚ)))
    ∧ (∀ (p0 : Point) (cw ch : ℚ) (r c : Nat),
      cellCenter p0 cw ch r c =
        ((p0.x : ℚ) + (c : ℚ) * cw + cw / 2, (p0.y : ℚ) + (r : ℚ) * ch + ch / 2))
    ∧ compute_cell_size stGeo cfgGeo = some (10, 10)
    ∧ cellCenter (Point.mk 0 0) 10 10 0 0 = (5, 5)
    ∧ cellCenter (Point.mk 0 0) 10 10 11 23 = (235, 115) := by
  refine ⟨fun st cfg p0 pTr pBl hp ht hb hx hy =>
      compute_cell_size_of_valid st cfg p0 pTr pBl hp ht hb hx hy,
    fun p0 cw ch r c => rfl, ?_, ?_, ?_⟩
  · rw [compute_cell_size_of_valid stGeo cfgGeo (Point.mk 0 0) (Point.mk 240 0)
      (Point.mk 0 120) rfl rfl rfl (by decide) (by decide)]
    norm_num [cfgGeo]
  · simp only [cellCenter]
    norm_num
  · simp only [cellCenter]
    norm_num

/-- Witness for C7: the general cell-size formula applied to the concrete
example calibration of the spec. -/
theorem C7_cell_geometry_witness :
    compute_cell_size stGeo cfgGeo =
      some (((240 : Int) : ℚ) / ((24 : Nat) : ℚ),
            ((120 : Int) : ℚ) / ((12 : Nat) : ℚ)) :=
  C7_cell_geometry.1 stGeo cfgGeo (Point.mk 0 0) (Point.mk 240 0)
    (Point.mk 0 120) rfl rfl rfl (by decide) (by decide)

/-- C8: with all three calibration points set, cell-size resolution fails
(returns no cell size) exactly when pTR.x ≤ p00.x or pBL.y ≤ p00.y, for
every columns and rows. -/
theorem C8_invalid_calibration_iff :
    ∀ (st : MacroState) (cfg : Config) (p0 pTr pBl : Point),
      st.p00 = some p0 → st.pTR = some pTr → st.pBL = some pBl →
      (compute_cell_size st cfg = none ↔ pTr.x ≤ p0.x ∨ pBl.y ≤ p0.y) := by
  intro st cfg p0 pTr pBl hp ht hb
  obtain ⟨sp, stt, sbb, srun⟩ := st
  simp only at hp ht hb
  subst hp; subst ht; subst hb
  simp only [compute_cell_size]
  by_cases h : pTr.x - p0.x ≤ 0 ∨ pBl.y - p0.y ≤ 0
  · rw [if_pos h]
    simp only [true_iff]
    omega
  · rw [if_neg h]
    simp only [reduceCtorEq, false_iff]
    omega

/-- Witness for C8: on a calibration with pTR.x = p00.x the equivalence is
inhabited concretely. -/
theorem C8_invalid_calibration_iff_witness :
    compute_cell_size stBad cfgGeo = none ↔ (0 : Int) ≤ 0 ∨ (120 : Int) ≤ 0 :=
  C8_invalid_calibration_iff stBad cfgGeo (Point.mk 0 0) (Point.mk 0 5)
    (Point.mk 0 120) rfl rfl rfl

/-- C10: whenever the positive-extent check passes and columns ≥ 1 and
rows ≥ 1, the computed cell width and height are strictly positive in
exact arithmetic, so the degenerate-cell-size guard of run_macro
(cell_w == 0 or cell_h == 0) cannot fire and a validly calibrated start
never reports a bad cell size. -/
theorem C10_no_degenerate_cells :
    ∀ (st : MacroState) (cfg : Config) (p0 pTr pBl : Point),
      st.p00 = some p0 → st.pTR = some pTr → st.pBL = some pBl →
      p0.x < pTr.x → p0.y < pBl.y → 1 ≤ cfg.columns → 1 ≤ cfg.rows →
      (∃ cw ch : ℚ, compute_cell_size st cfg = some (cw, ch) ∧
        0 < cw ∧ 0 < ch ∧ ¬(cw = 0 ∨ ch = 0))
      ∧ (st.running = false → ∀ (env : Env) (gen : Nat → Nat),
          ( run_macro st cfg env gen).1 ≠ RunResult.badCellSize) := by
  intro st cfg p0 pTr pBl hp ht hb hx hy hc hr
  have hw := cellWidth_pos p0 pTr cfg hx hc
  have hh := cellHeight_pos p0 pBl cfg hy hr
  constructor
  · refine ⟨_, _, compute_cell_size_of_valid st cfg p0 pTr pBl hp ht hb hx hy,
      hw, hh, ?_⟩
    intro h
    rcases h with h | h
    · exact absurd h (ne_of_gt hw)
    · exact absurd h (ne_of_gt hh)
  · intro hrun env gen
    rw [run_macro_eq_loop st cfg env gen p0 pTr pBl hp ht hb hrun hx hy hc hr]
    simp only
    split <;> simp

/-- Witness for C10: instantiated at the example calibration of the spec. -/
theorem C10_no_degenerate_cells_witness :
    (∃ cw ch : ℚ, compute_cell_size stGeo cfgGeo = some (cw, ch) ∧
      0 < cw ∧ 0 < ch ∧ ¬(cw = 0 ∨ ch = 0))
    ∧ (stGeo.running = false → ∀ (env : Env) (gen : Nat → Nat),
        ( run_macro stGeo cfgGeo env gen).1 ≠ RunResult.badCellSize) :=
  C10_no_degenerate_cells stGeo cfgGeo (Point.mk 0 0) (Point.mk 240 0)
    (Point.mk 0 120) rfl rfl rfl (by decide) (by decide) (by decide) (by decide)

/-! ### Sequence planner lemmas -/

theorem colMajorSeq_eq_map_range (cols rows : Nat) (hr : 1 ≤ rows) :
    colMajorSeq cols rows =
      (List.range (cols * rows)).map (fun i => (i % rows, i / rows)) := by
  induction cols with
  | zero => simp [colMajorSeq]
  | succ n ih =>
    rw [colMajorSeq, List.range_succ, List.flatMap_append, List.flatMap_singleton,
      Nat.succ_mul, List.range_add, List.map_append, List.map_map]
    rw [colMajorSeq] at ih
    rw [ih]
    congr 1
    apply List.map_congr_left
    intro j hj
    rw [List.mem_range] at hj
    have h1 : (n * rows + j) % rows = j := by
      rw [Nat.mul_comm, Nat.mul_add_mod, Nat.mod_eq_of_lt hj]
    have h2 : (n * rows + j) / rows = n := by
      rw [Nat.mul_comm, Nat.mul_add_div hr, Nat.div_eq_of_lt hj, Nat.add_zero]
    simp [Function.comp, h1, h2]

theorem rowMajorSeq_eq_map_range (cols rows : Nat) (hc : 1 ≤ cols) :
    rowMajorSeq cols rows =
      (List.range (rows * cols)).map (fun i => (i / cols, i % cols)) := by
  induction rows with
  | zero => simp [rowMajorSeq]
  | succ n ih =>
    rw [rowMajorSeq, List.range_succ, List.flatMap_append, List.flatMap_singleton,
      Nat.succ_mul, List.range_add, List.map_append, List.map_map]
    rw [rowMajorSeq] at ih
    rw [ih]
    congr 1
    apply List.map_congr_left
    intro j hj
    rw [List.mem_range] at hj
    have h1 : (n * cols + j) % cols = j := by
      rw [Nat.mul_comm, Nat.mul_add_mod, Nat.mod_eq_of_lt hj]
    have h2 : (n * cols + j) / cols = n := by
      rw [Nat.mul_comm, Nat.mul_add_div hc, Nat.div_eq_of_lt hj, Nat.add_zero]
    simp [Function.comp, h1, h2]

theorem modDiv_injective (rows : Nat) :
    Function.Injective (fun i => (i % rows, i / rows)) := by
  intro a b h
  simp only [Prod.mk.injEq] at h
  have ha := Nat.div_add_mod a rows
  have hb := Nat.div_add_mod b rows
  rw [← ha, ← hb, h.1, h.2]

theorem divMod_injective (cols : Nat) :
    Function.Injective (fun i => (i / cols, i % cols)) := by
  intro a b h
  simp only [Prod.mk.injEq] at h
  have ha := Nat.div_add_mod a cols
  have hb := Nat.div_add_mod b cols
  rw [← ha, ← hb, h.1, h.2]

theorem colMajorSeq_nodup (cols rows : Nat) (hr : 1 ≤ rows) :
    (colMajorSeq cols rows).Nodup := by
  rw [colMajorSeq_eq_map_range cols rows hr]
  exact (List.nodup_range _).map (modDiv_injective rows)

theorem rowMajorSeq_nodup (cols rows : Nat) (hc : 1 ≤ cols) :
    (rowMajorSeq cols rows).Nodup := by
  rw [rowMajorSeq_eq_map_range cols rows hc]
  exact (List.nodup_range _).map (divMod_injective cols)

theorem mem_colMajorSeq (cols rows r c : Nat) :
    (r, c) ∈ colMajorSeq cols rows ↔ r < rows ∧ c < cols := by
  simp only [colMajorSeq, List.mem_flatMap, List.mem_map, List.mem_range,
    Prod.mk.injEq]
  constructor
  · rintro ⟨c2, hc2, r2, hr2, he1, he2⟩
    subst he1; subst he2
    exact ⟨hr2, hc2⟩
  · rintro ⟨h1, h2⟩
    exact ⟨c, h2, r, h1, rfl, rfl⟩

theorem mem_rowMajorSeq (cols rows r c : Nat) :
    (r, c) ∈ rowMajorSeq cols rows ↔ r < rows ∧ c < cols := by
  simp only [rowMajorSeq, List.mem_flatMap, List.mem_map, List.mem_range,
    Prod.mk.injEq]
  constructor
  · rintro ⟨r2, hr2, c2, hc2, he1, he2⟩
    subst he1; subst he2
    exact ⟨hr2, hc2⟩
  · rintro ⟨h1, h2⟩
    exact ⟨r, h1, c, h2, rfl, rfl⟩

theorem colMajorSeq_length (cols rows : Nat) (hr : 1 ≤ rows) :
    (colMajorSeq cols rows).length = cols * rows := by
  rw [colMajorSeq_eq_map_range cols rows hr, List.length_map, List.length_range]

theorem rowMajorSeq_length (cols rows : Nat) (hc : 1 ≤ cols) :
    (rowMajorSeq cols rows).length = cols * rows := by
  rw [rowMajorSeq_eq_map_range cols rows hc, List.length_map, List.length_range,
    Nat.mul_comm]

/-! ### Fisher-Yates shuffle permutes its input -/

theorem set_cons_perm (t : List α) :
    ∀ (j : Nat) (a b : α), t[j]? = some b → (b :: t.set j a).Perm (a :: t) := by
  induction t with
  | nil => intro j a b h; simp at h
  | cons y t' ih =>
    intro j a b h
    cases j with
    | zero =>
      simp only [List.getElem?_cons_zero, Option.some.injEq] at h
      subst h
      simpa using List.Perm.swap a y t'
    | succ j =>
      simp only [List.getElem?_cons_succ] at h
      have step1 : (b :: y :: t'.set j a).Perm (y :: b :: t'.set j a) :=
        List.Perm.swap y b (t'.set j a)
      have step2 : (y :: b :: t'.set j a).Perm (y :: a :: t') :=
        (ih j a b h).cons y
      have step3 : (y :: a :: t').Perm (a :: y :: t') := List.Perm.swap a y t'
      exact (step1.trans step2).trans step3

theorem set_set_perm (l : List α) :
    ∀ (i j : Nat) (a b : α), l[i]? = some a → l[j]? = some b →
      ((l.set i b).set j a).Perm l := by
  induction l with
  | nil => intro i j a b h; simp at h
  | cons x t ih =>
    intro i j a b hi hj
    cases i with
    | zero =>
      simp only [List.getElem?_cons_zero, Option.some.injEq] at hi
      subst hi
      cases j with
      | zero =>
        simp only [List.getElem?_cons_zero, Option.some.injEq] at hj
        subst hj
        simp
      | succ j =>
        simp only [List.getElem?_cons_succ] at hj
        simpa using set_cons_perm t j x b hj
    | succ i =>
      simp only [List.getElem?_cons_succ] at hi
      cases j with
      | zero =>
        simp only [List.getElem?_cons_zero, Option.some.injEq] at hj
        subst hj
        simpa using set_cons_perm t i x a hi
      | succ j =>
        simp only [List.getElem?_cons_succ] at hj
        simpa using (ih i j a b hi hj).cons x

theorem swapIdx_perm (l : List α) (i j : Nat) : (swapIdx l i j).Perm l := by
  unfold swapIdx
  split
  · rename_i a b hi hj
    exact set_set_perm l i j a b hi hj
  · exact List.Perm.refl l

theorem shuffleGo_perm (g : Nat → Nat) :
    ∀ (n : Nat) (l : List α), (shuffleGo g l n).Perm l := by
  intro n
  induction n with
  | zero => intro l; exact List.Perm.refl l
  | succ m ih =>
    intro l
    exact (ih _).trans (swapIdx_perm l (m + 1) (g (m + 1) % (m + 2)))

theorem shuffle_perm (g : Nat → Nat) (l : List α) : (shuffle g l).Perm l :=
  shuffleGo_perm g (l.length - 1) l

/-- For any scan order in {1,2,3}, the planned sequence is a permutation
of the row-major enumeration of the grid. -/
theorem planSeq_perm_rowMajor (cols rows order : Nat) (g : Nat → Nat)
    (hc : 1 ≤ cols) (hr : 1 ≤ rows)
    (ho : order = 1 ∨ order = 2 ∨ order = 3) :
    (planSeq cols rows order g).Perm (rowMajorSeq cols rows) := by
  rcases ho with h | h | h <;> subst h
  · simp only [planSeq, if_pos]
    rw [List.perm_ext_iff_of_nodup (colMajorSeq_nodup cols rows hr)
      (rowMajorSeq_nodup cols rows hc)]
    intro p
    obtain ⟨pr, pc⟩ := p
    rw [mem_colMajorSeq, mem_rowMajorSeq]
  · simp [planSeq]
  · simp only [planSeq]
    norm_num
    exact shuffle_perm g (rowMajorSeq cols rows)

/-! ### Claims C1 and C9: the planner -/

/-- C1: for every columns ≥ 1, rows ≥ 1 and scanOrder ∈ {1,2,3}, the
sequence built by run_macro has length exactly columns × rows, has no
duplicate entries, and contains a pair (r, c) exactly when r < rows and
c < columns: it is a permutation of the full (row, column) cross-product,
every pair appearing exactly once. -/
theorem C1_plan_is_permutation :
    ∀ (cols rows order : Nat) (g : Nat → Nat), 1 ≤ cols → 1 ≤ rows →
      (order = 1 ∨ order = 2 ∨ order = 3) →
      (planSeq cols rows order g).length = cols * rows ∧
      (planSeq cols rows order g).Nodup ∧
      ∀ r c : Nat, ((r, c) ∈ planSeq cols rows order g ↔ r < rows ∧ c < cols) := by
  intro cols rows order g hc hr ho
  have hperm := planSeq_perm_rowMajor cols rows order g hc hr ho
  refine ⟨?_, ?_, ?_⟩
  · rw [hperm.length_eq, rowMajorSeq_length cols rows hc]
  · exact hperm.nodup_iff.mpr (rowMajorSeq_nodup cols rows hc)
  · intro r c
    exact hperm.mem_iff.trans (mem_rowMajorSeq cols rows r c)

/-- Witness for C1: a shuffled (scanOrder 3) 2×2 plan is still a
permutation of the cross-product. -/
theorem C1_plan_is_permutation_witness :
    (planSeq 2 2 3 g0).length = 2 * 2 ∧ (planSeq 2 2 3 g0).Nodup ∧
    ∀ r c : Nat, ((r, c) ∈ planSeq 2 2 3 g0 ↔ r < 2 ∧ c < 2) :=
  C1_plan_is_permutation 2 2 3 g0 (by decide) (by decide) (Or.inr (Or.inr rfl))

/-- C9: scanOrder=1 visits columns outer and rows inner — the i-th step
is cell (i mod rows, i div rows) — and scanOrder=2 visits rows outer and
columns inner — the i-th step is cell (i div cols, i mod cols) — for
every grid size; on a 2×2 grid the order-1 sequence is
(0,0),(1,0),(0,1),(1,1) and the order-2 sequence is
(0,0),(0,1),(1,0),(1,1). -/
theorem C9_deterministic_orders :
    (∀ (cols rows i : Nat) (g : Nat → Nat), 1 ≤ rows → i < cols * rows →
      (planSeq cols rows 1 g)[i]? = some (i % rows, i / rows))
    ∧ (∀ (cols rows i : Nat) (g : Nat → Nat), 1 ≤ cols → i < rows * cols →
      (planSeq cols rows 2 g)[i]? = some (i / cols, i % cols))
    ∧ planSeq 2 2 1 g0 = [(0, 0), (1, 0), (0, 1), (1, 1)]
    ∧ planSeq 2 2 2 g0 = [(0, 0), (0, 1), (1, 0), (1, 1)] := by
  refine ⟨?_, ?_, by decide, by decide⟩
  · intro cols rows i g hr hi
    have hps : planSeq cols rows 1 g = colMajorSeq cols rows := by
      simp [planSeq]
    rw [hps, colMajorSeq_eq_map_range cols rows hr, List.getElem?_map,
      List.getElem?_range hi]
    rfl
  · intro cols rows i g hc hi
    have hps : planSeq cols rows 2 g = rowMajorSeq cols rows := by
      simp [planSeq]
    rw [hps, rowMajorSeq_eq_map_range cols rows hc, List.getElem?_map,
      List.getElem?_range hi]
    rfl

/-- Witness for C9: step 4 of a column-major 2×3 plan is cell (1,1), and
step 4 of a row-major 3×2 plan is cell (1,1). -/
theorem C9_deterministic_orders_witness :
    (planSeq 2 3 1 g0)[4]? = some (1, 1) ∧ (planSeq 3 2 2 g0)[4]? = some (1, 1) :=
  ⟨C9_deterministic_orders.1 2 3 4 g0 (by decide) (by decide),
   C9_deterministic_orders.2.1 3 2 4 g0 (by decide) (by decide)⟩

/-! ### Execution loop lemmas -/

theorem clickLoop_countP_keyUp (env : Env) (cw ch : ℚ) (order : Nat) :
    ∀ (seq : List (Nat × Nat)) (idx clicks nba : Nat),
      List.countP Ev.isKeyUp (clickLoop env cw ch order idx clicks nba seq).2.1 = 0 := by
  intro seq
  induction seq with
  | nil =>
    intro idx clicks nba
    rfl
  | cons p rest ih =>
    intro idx clicks nba
    obtain ⟨r, c⟩ := p
    simp only [clickLoop]
    by_cases htop : env.topFlag idx = false
    · rw [if_pos htop]
      rfl
    · rw [if_neg htop]
      by_cases hfail : env.failAt idx = true
      · rw [if_pos hfail]
        rfl
      · rw [if_neg hfail]
        simp only [List.countP_cons, List.countP_append, Ev.isKeyUp, ih,
          apply_ite (List.countP Ev.isKeyUp), List.countP_nil]
        simp [List.countP_cons, Ev.isKeyUp]

/-- If the pointer collaborator never raises, and the running flag is
read true at the top of the first `k` iterations and false at iteration
`k` (when one exists), the loop performs exactly `k` further clicks, does
not raise, and emits exactly `k` move and `k` click events. -/
theorem clickLoop_cancel (env : Env) (cw ch : ℚ) (order : Nat)
    (hfail : ∀ i, env.failAt i = false) :
    ∀ (seq : List (Nat × Nat)) (idx clicks nba k : Nat),
      k ≤ seq.length →
      (∀ i, i < k → env.topFlag (idx + i) = true) →
      (k < seq.length → env.topFlag (idx + k) = false) →
      (clickLoop env cw ch order idx clicks nba seq).1 = clicks + k ∧
      (clickLoop env cw ch order idx clicks nba seq).2.2 = false ∧
      List.countP Ev.isMove (clickLoop env cw ch order idx clicks nba seq).2.1 = k ∧
      List.countP Ev.isClick (clickLoop env cw ch order idx clicks nba seq).2.1 = k := by
  intro seq
  induction seq with
  | nil =>
    intro idx clicks nba k hk htrue hstop
    have hk0 : k = 0 := Nat.le_zero.mp hk
    subst hk0
    exact ⟨rfl, rfl, rfl, rfl⟩
  | cons p rest ih =>
    intro idx clicks nba k hk htrue hstop
    obtain ⟨r, c⟩ := p
    cases k with
    | zero =>
      have htop : env.topFlag idx = false := by
        have := hstop (Nat.succ_le_succ (Nat.zero_le rest.length))
        simpa using this
      simp only [clickLoop]
      rw [if_pos htop]
      exact ⟨rfl, rfl, rfl, rfl⟩
    | succ k' =>
      have htop : env.topFlag idx = true := by
        have := htrue 0 (Nat.succ_pos k')
        simpa using this
      have htop' : ¬ env.topFlag idx = false := by simp [htop]
      simp only [clickLoop]
      rw [if_neg htop', if_neg (by simp [hfail idx])]
      simp only [Bool.and_eq_true, decide_eq_true_eq]
      have ihres := ih (idx + 1) (clicks + 1)
        (if nba ≤ clicks + 1 ∧ env.burstFlag idx = true
          then clicks + 1 + env.burstStep idx else nba) k'
        (Nat.le_of_succ_le_succ hk)
        (fun i hi => by
          have h2 := htrue (i + 1) (Nat.succ_lt_succ hi)
          have he : idx + (i + 1) = idx + 1 + i := by omega
          rwa [he] at h2)
        (fun hlt => by
          have h2 := hstop (Nat.succ_lt_succ hlt)
          have he : idx + (k' + 1) = idx + 1 + k' := by omega
          rwa [he] at h2)
      refine ⟨?_, ?_, ?_, ?_⟩
      · rw [ihres.1]
        omega
      · exact ihres.2.1
      · simp only [List.countP_cons, List.countP_append,
          apply_ite (List.countP Ev.isMove), List.countP_nil]
        simp [List.countP_cons, Ev.isMove]
        exact ihres.2.2.1
      · simp only [List.countP_cons, List.countP_append,
          apply_ite (List.countP Ev.isClick), List.countP_nil]
        simp [List.countP_cons, Ev.isClick]
        exact ihres.2.2.2

theorem unitRestCount_cons (order r c : Nat) (rest : List (Nat × Nat)) :
    unitRestCount order ((r, c) :: rest) =
      (if (if order = 1 then
            match rest with
            | [] => true
            | (_, c2) :: _ => decide (c2 ≠ c)
          else if order = 2 then
            match rest with
            | [] => true
            | (r2, _) :: _ => decide (r2 ≠ r)
          else false) = true then 1 else 0) + unitRestCount order rest := by
  cases rest with
  | nil =>
    by_cases h1 : order = 1
    · simp [unitRestCount, h1]
    · by_cases h2 : order = 2
      · simp [unitRestCount, h1, h2]
      · simp [unitRestCount, h1, h2]
  | cons q rest' =>
    obtain ⟨r2, c2⟩ := q
    by_cases h1 : order = 1
    · subst h1
      by_cases hc : c2 = c
      · simp [unitRestCount, hc]
      · simp [unitRestCount, hc]
    · by_cases h2 : order = 2
      · subst h2
        by_cases hr : r2 = r
        · simp [unitRestCount, h1, hr]
        · simp [unitRestCount, h1, hr]
      · simp [unitRestCount, h1, h2]

/-- In an undisturbed run (flag stays true, no collaborator failure), the
number of unit-rest sleeps the loop emits is exactly `unitRestCount` of
the remaining sequence. -/
theorem clickLoop_countP_unit (env : Env) (cw ch : ℚ) (order : Nat)
    (htop : ∀ i, env.topFlag i = true) (hunit : ∀ i, env.unitFlag i = true)
    (hfail : ∀ i, env.failAt i = false) :
    ∀ (seq : List (Nat × Nat)) (idx clicks nba : Nat),
      List.countP Ev.isUnitRest (clickLoop env cw ch order idx clicks nba seq).2.1 =
        unitRestCount order seq := by
  intro seq
  induction seq with
  | nil =>
    intro idx clicks nba
    rfl
  | cons p rest ih =>
    intro idx clicks nba
    obtain ⟨r, c⟩ := p
    simp only [clickLoop]
    rw [if_neg (by simp [htop idx]), if_neg (by simp [hfail idx])]
    rw [unitRestCount_cons]
    simp only [hunit idx, Bool.true_and, List.countP_cons, List.countP_append,
      apply_ite (List.countP Ev.isUnitRest), List.countP_nil, ih]
    simp [List.countP_cons, Ev.isUnitRest, Nat.add_comm]

/-- Appending a nonempty constant-column block in front of a list whose
head (if any) lies in a different column contributes exactly one
order-1 unit rest: at the last element of the block. -/
theorem unitRestCount_block (k : Nat) :
    ∀ (b m : List (Nat × Nat)), b ≠ [] → (∀ p ∈ b, p.2 = k) →
      (∀ q ∈ m.head?, q.2 ≠ k) →
      unitRestCount 1 (b ++ m) = 1 + unitRestCount 1 m := by
  intro b
  induction b with
  | nil =>
    intro m hne
    exact absurd rfl hne
  | cons p b' ih =>
    intro m _ hconst hm
    obtain ⟨pr, pc⟩ := p
    have hpc : pc = k := hconst (pr, pc) (List.mem_cons_self _ _)
    cases b' with
    | nil =>
      cases m with
      | nil => simp [unitRestCount]
      | cons q m' =>
        obtain ⟨qr, qc⟩ := q
        have hqc : qc ≠ pc := by
          rw [hpc]
          exact hm (qr, qc) (by simp)
        simp [unitRestCount, hqc, Nat.add_comm]
    | cons p' b'' =>
      obtain ⟨pr', pc'⟩ := p'
      have hpc' : pc' = pc := by
        rw [hpc]
        exact hconst (pr', pc') (by simp)
      have hstep := ih m (by simp) (fun q hq => hconst q (List.mem_cons_of_mem _ hq)) hm
      calc unitRestCount 1 (((pr, pc) :: (pr', pc') :: b'') ++ m)
          = unitRestCount 1 (((pr', pc') :: b'') ++ m) := by
            simp [unitRestCount, hpc']
        _ = 1 + unitRestCount 1 m := hstep

/-- Over a list of column indices with no two adjacent columns equal, the
column-major expansion has one order-1 unit rest per column. -/
theorem unitRestCount_flatMap (rows : Nat) (hr : 1 ≤ rows) :
    ∀ cs : List Nat, List.Chain' (fun a b => a ≠ b) cs →
      unitRestCount 1
        (cs.flatMap (fun c => (List.range rows).map (fun r => (r, c)))) =
        cs.length := by
  intro cs
  induction cs with
  | nil => intro _; rfl
  | cons c cs' ih =>
    intro hchain
    rw [List.flatMap_cons]
    have hne : (List.range rows).map (fun r => (r, c)) ≠ [] := by
      simp [List.range_eq_nil]
      omega
    have hconst : ∀ p ∈ (List.range rows).map (fun r => (r, c)), p.2 = c := by
      intro p hp
      rw [List.mem_map] at hp
      obtain ⟨r, _, hrc⟩ := hp
      rw [← hrc]
    have hhead : ∀ q ∈ (cs'.flatMap
        (fun c2 => (List.range rows).map (fun r => (r, c2)))).head?, q.2 ≠ c := by
      intro q hq
      cases cs' with
      | nil => simp at hq
      | cons c' cs'' =>
        have hcc : c ≠ c' := (List.chain'_cons.mp hchain).1
        rw [List.flatMap_cons] at hq
        have hrows : ∃ t, List.range rows = 0 :: t := by
          cases hrange : List.range rows with
          | nil =>
            rw [List.range_eq_nil] at hrange
            omega
          | cons a t =>
            have : a = 0 := by
              have := List.getElem?_range (n := rows) (m := 0) (by omega)
              rw [hrange] at this
              simpa using this
            rw [this] at hrange ⊢
            exact ⟨t, rfl⟩
        obtain ⟨t, ht⟩ := hrows
        rw [ht] at hq
        simp only [List.map_cons, List.cons_append, List.head?_cons,
          Option.mem_def, Option.some.injEq] at hq
        rw [← hq]
        simp
        omega
    rw [unitRestCount_block c _ _ hne hconst hhead]
    have hch' : List.Chain' (fun a b => a ≠ b) cs' := List.Chain'.tail hchain
    rw [ih hch']
    simp [Nat.add_comm]

/-- The column-major plan of a `cols × rows` grid (rows ≥ 1) triggers the
order-1 unit rest exactly `cols` times. -/
theorem unitRestCount_colMajor (cols rows : Nat) (hr : 1 ≤ rows) :
    unitRestCount 1 (colMajorSeq cols rows) = cols := by
  have hchain : List.Chain' (fun a b => a ≠ b) (List.range cols) := by
    have hpw : (List.range cols).Pairwise (· < ·) := List.pairwise_lt_range cols
    exact (hpw.imp (fun h => Nat.ne_of_lt h)).chain'
  have := unitRestCount_flatMap rows hr (List.range cols) hchain
  rw [colMajorSeq, this, List.length_range]

/-! ### Claims C2, C5, C6: the execution loop -/

/-- C2 (amended): for every grid with R ≥ 1 rows and C ≥ 2 columns run to
completion under scanOrder=1, the unit-rest sleep fires exactly C times —
once at the end of every column, including after the final column,
because the end-of-sequence case of the check at source line 292 triggers
the same rest. -/
theorem C2_unit_rest_once_per_column :
    ∀ (st : MacroState) (cfg : Config) (env : Env) (g : Nat → Nat)
      (p0 pTr pBl : Point),
      st.p00 = some p0 → st.pTR = some pTr → st.pBL = some pBl →
      st.running = false → p0.x < pTr.x → p0.y < pBl.y →
      2 ≤ cfg.columns → 1 ≤ cfg.rows → cfg.scan_order = 1 →
      (∀ i, env.topFlag i = true) → (∀ i, env.unitFlag i = true) →
      (∀ i, env.failAt i = false) →
      List.countP Ev.isUnitRest ( run_macro st cfg env g).2.1 = cfg.columns := by
  intro st cfg env g p0 pTr pBl hp ht hb hrun hx hy hc hr ho htop hunit hfail
  rw [run_macro_eq_loop st cfg env g p0 pTr pBl hp ht hb hrun hx hy (by omega) hr]
  simp only [List.countP_cons, List.countP_append, List.countP_nil]
  rw [clickLoop_countP_unit env (((pTr.x - p0.x : Int) : ℚ) / (cfg.columns : ℚ))
    (((pBl.y - p0.y : Int) : ℚ) / (cfg.rows : ℚ)) cfg.scan_order htop hunit hfail]
  have hplan : planSeq cfg.columns cfg.rows cfg.scan_order g =
      colMajorSeq cfg.columns cfg.rows := by
    rw [ho]
    simp [planSeq]
  rw [hplan, ho, unitRestCount_colMajor cfg.columns cfg.rows hr]
  simp [Ev.isUnitRest]

/-- Witness for the amended C2: the undisturbed 2×2 column-major run
rests exactly `columns` times. -/
theorem C2_unit_rest_once_per_column_witness :
    List.countP Ev.isUnitRest ( run_macro stRun cfgRun envAll g0).2.1 =
      cfgRun.columns :=
  C2_unit_rest_once_per_column stRun cfgRun envAll g0 (Point.mk 0 0)
    (Point.mk 4 0) (Point.mk 0 4) rfl rfl rfl rfl (by decide) (by decide)
    (by decide) (by decide) rfl (fun _ => rfl) (fun _ => rfl) (fun _ => rfl)

/-- Counterexample to C2 as stated: the undisturbed complete scanOrder-1
run on a 2-row, 2-column grid sleeps the unit rest twice — once per
column including the final one — not rows − 1 = 1 times. -/
theorem C2_unit_rest_counterexample :
    List.countP Ev.isUnitRest ( run_macro stRun cfgRun envAll g0).2.1 = 2 ∧
    ¬ List.countP Ev.isUnitRest ( run_macro stRun cfgRun envAll g0).2.1 = 2 - 1 := by
  have hrw := run_macro_eq_loop stRun cfgRun envAll g0 (Point.mk 0 0)
    (Point.mk 4 0) (Point.mk 0 4) rfl rfl rfl rfl (by decide) (by decide)
    (by decide) (by decide)
  rw [hrw]
  exact ⟨by decide, by decide⟩

/-- C5: if the cancellation flag (running := false) is observed cleared
at the top-of-loop check of step k — after being true for the first k
checks — and the pointer collaborator never fails, the run reports
exactly k completed clicks and the trace contains exactly k moveTo and k
click calls: no move/click happens after the flag is observed. (For
k = sequence length the flag hypothesis at step k is vacuous and the run
completes with all clicks.) -/
theorem C5_cancellation_exact_clicks :
    ∀ (st : MacroState) (cfg : Config) (env : Env) (g : Nat → Nat)
      (p0 pTr pBl : Point) (k : Nat),
      st.p00 = some p0 → st.pTR = some pTr → st.pBL = some pBl →
      st.running = false → p0.x < pTr.x → p0.y < pBl.y →
      1 ≤ cfg.columns → 1 ≤ cfg.rows →
      (∀ i, env.failAt i = false) →
      k ≤ (planSeq cfg.columns cfg.rows cfg.scan_order g).length →
      (∀ i, i < k → env.topFlag i = true) →
      (k < (planSeq cfg.columns cfg.rows cfg.scan_order g).length →
        env.topFlag k = false) →
      ( run_macro st cfg env g).1 = RunResult.done k ∧
      List.countP Ev.isMove ( run_macro st cfg env g).2.1 = k ∧
      List.countP Ev.isClick ( run_macro st cfg env g).2.1 = k := by
  intro st cfg env g p0 pTr pBl k hp ht hb hrun hx hy hc hr hfail hk htrue hstop
  rw [run_macro_eq_loop st cfg env g p0 pTr pBl hp ht hb hrun hx hy hc hr]
  have hres := clickLoop_cancel env
    (((pTr.x - p0.x : Int) : ℚ) / (cfg.columns : ℚ))
    (((pBl.y - p0.y : Int) : ℚ) / (cfg.rows : ℚ)) cfg.scan_order hfail
    (planSeq cfg.columns cfg.rows cfg.scan_order g) 0 0 env.burst0 k hk
    (fun i hi => by simpa using htrue i hi)
    (fun hlt => by simpa using hstop hlt)
  refine ⟨?_, ?_, ?_⟩
  · rw [hres.2.1]
    simp only [Bool.false_eq_true, if_false]
    rw [hres.1]
    simp
  · simp only [List.countP_cons, List.countP_append, List.countP_nil]
    rw [hres.2.2.1]
    simp [Ev.isMove]
  · simp only [List.countP_cons, List.countP_append, List.countP_nil]
    rw [hres.2.2.2]
    simp [Ev.isClick]

/-- Witness for C5: cancelling the 2×2 run at the top-of-loop check of
step 1 yields exactly one reported click, one moveTo and one click call. -/
theorem C5_cancellation_exact_clicks_witness :
    ( run_macro stRun cfgRun envCancel1 g0).1 = RunResult.done 1 ∧
    List.countP Ev.isMove ( run_macro stRun cfgRun envCancel1 g0).2.1 = 1 ∧
    List.countP Ev.isClick ( run_macro stRun cfgRun envCancel1 g0).2.1 = 1 :=
  C5_cancellation_exact_clicks stRun cfgRun envCancel1 g0 (Point.mk 0 0)
    (Point.mk 4 0) (Point.mk 0 4) 1 rfl rfl rfl rfl (by decide) (by decide)
    (by decide) (by decide) (fun _ => rfl) (by decide) (by decide) (by decide)

/-- C6: whenever the run enters the click loop, the trace contains
exactly one keyUp — the modifier key is released exactly once on every
exit path: completion, cancellation (any topFlag history) or a
pointer/keyboard failure at any step (any failAt history), all covered by
the universally quantified environment. -/
theorem C6_shift_released_exactly_once :
    ∀ (st : MacroState) (cfg : Config) (env : Env) (g : Nat → Nat)
      (p0 pTr pBl : Point),
      st.p00 = some p0 → st.pTR = some pTr → st.pBL = some pBl →
      st.running = false → p0.x < pTr.x → p0.y < pBl.y →
      1 ≤ cfg.columns → 1 ≤ cfg.rows →
      List.countP Ev.isKeyUp ( run_macro st cfg env g).2.1 = 1 := by
  intro st cfg env g p0 pTr pBl hp ht hb hrun hx hy hc hr
  rw [run_macro_eq_loop st cfg env g p0 pTr pBl hp ht hb hrun hx hy hc hr]
  simp only [List.countP_cons, List.countP_append, List.countP_nil]
  rw [clickLoop_countP_keyUp env (((pTr.x - p0.x : Int) : ℚ) / (cfg.columns : ℚ))
    (((pBl.y - p0.y : Int) : ℚ) / (cfg.rows : ℚ)) cfg.scan_order]
  simp [Ev.isKeyUp]

/-- Witness for C6: a run whose pointer collaborator raises at step 0
still releases the modifier key exactly once. -/
theorem C6_shift_released_exactly_once_witness :
    List.countP Ev.isKeyUp ( run_macro stRun cfgRun envFail0 g0).2.1 = 1 :=
  C6_shift_released_exactly_once stRun cfgRun envFail0 g0 (Point.mk 0 0)
    (Point.mk 4 0) (Point.mk 0 4) rfl rfl rfl rfl (by decide) (by decide)
    (by decide) (by decide)

/-! ### Claims C3 and C4: start rejection and snapshotting -/

/-- The loop output does not depend on the mid-run pTR/pBL histories: the
loop never reads them. -/
theorem clickLoop_ignores_pTR_pBL
    (t bf uf : Nat → Bool) (p pt1 pb1 pt2 pb2 : Nat → Point)
    (jx jy : Nat → Int) (b0 : Nat) (bs : Nat → Nat) (f : Nat → Bool)
    (cw ch : ℚ) (order : Nat) :
    ∀ (seq : List (Nat × Nat)) (idx clicks nba : Nat),
      clickLoop (Env.mk t bf uf p pt1 pb1 jx jy b0 bs f) cw ch order
          idx clicks nba seq =
        clickLoop (Env.mk t bf uf p pt2 pb2 jx jy b0 bs f) cw ch order
          idx clicks nba seq := by
  intro seq
  induction seq with
  | nil =>
    intro idx clicks nba
    rfl
  | cons q rest ih =>
    intro idx clicks nba
    obtain ⟨r, c⟩ := q
    simp only [clickLoop, ih]

/-- C3 (amended): a start request issued while the running flag is set —
the Running phase, entered only after the startup delay — is rejected as
a no-op: run_macro reports AlreadyRunning, emits no events (in
particular, no clicks), and leaves the shared state unchanged.  During
the Starting delay itself the flag is not yet set, so a start in that
window is not rejected (see the counterexample). -/
theorem C3_start_while_running_rejected :
    ∀ (st : MacroState) (cfg : Config) (env : Env) (g : Nat → Nat),
      st.running = true →
      run_macro st cfg env g = (RunResult.alreadyRunning, [], st) := by
  intro st cfg env g h
  rw [ run_macro, if_pos h]

/-- Witness for the amended C3: starting against a running state is a
pure no-op. -/
theorem C3_start_while_running_rejected_witness :
    run_macro stBusy cfgRun envAll g0 = (RunResult.alreadyRunning, [], stBusy) :=
  C3_start_while_running_rejected stBusy cfgRun envAll g0 rfl

/-- Counterexample to C3 as stated: run_macro performs the startup sleep
BEFORE setting the running flag — the trace begins sleepStart and only
then setRunning true — so while a first run sits in its Starting delay
the shared state still has running = false, and a second start request
evaluated against exactly that state is NOT rejected: on a calibrated
1×1 grid it proceeds, reports one click, and does not report
AlreadyRunning. -/
theorem C3_starting_phase_counterexample :
    stOne.running = false ∧
    ( run_macro stOne cfgOne envOne g0).2.1.head? = some Ev.sleepStart ∧
    ( run_macro stOne cfgOne envOne g0).2.1[1]? = some (Ev.setRunning true) ∧
    ( run_macro stOne cfgOne envOne g0).1 = RunResult.done 1 ∧
    ¬ ( run_macro stOne cfgOne envOne g0).1 = RunResult.alreadyRunning := by
  have hrw := run_macro_eq_loop stOne cfgOne envOne g0 (Point.mk 0 0)
    (Point.mk 1 0) (Point.mk 0 1) rfl rfl rfl rfl (by decide) (by decide)
    (by decide) (by decide)
  rw [hrw]
  refine ⟨rfl, ?_, ?_, ?_, ?_⟩ <;> decide

/-- C4 (amended): the run snapshots the configuration-derived parameters
(cell size, grid dimensions, scan order, timing) once at start, and its
whole output — result, trace and final state — is invariant under
arbitrary mid-run overwrites of the shared pTR and pBL calibration
points; it is likewise unchanged whenever the per-iteration reads of
p00 agree (in particular when no capture fires mid-run).  But p00 itself
is NOT snapshotted: the loop re-reads state["p00"] every iteration, so a
mid-run p00 overwrite shifts subsequent click targets (see the
counterexample). -/
theorem C4_run_snapshot_except_p00 :
    ∀ (st : MacroState) (cfg : Config) (e1 e2 : Env) (g : Nat → Nat),
      e1.topFlag = e2.topFlag → e1.burstFlag = e2.burstFlag →
      e1.unitFlag = e2.unitFlag → e1.p00At = e2.p00At →
      e1.jx = e2.jx → e1.jy = e2.jy → e1.burst0 = e2.burst0 →
      e1.burstStep = e2.burstStep → e1.failAt = e2.failAt →
      run_macro st cfg e1 g = run_macro st cfg e2 g := by
  intro st cfg e1 e2 g h1 h2 h3 h4 h5 h6 h7 h8 h9
  obtain ⟨t1, b1, u1, p1, pt1, pb1, jx1, jy1, b01, bs1, f1⟩ := e1
  obtain ⟨t2, b2, u2, p2, pt2, pb2, jx2, jy2, b02, bs2, f2⟩ := e2
  simp only at h1 h2 h3 h4 h5 h6 h7 h8 h9
  subst h1; subst h2; subst h3; subst h4; subst h5; subst h6; subst h7
  subst h8; subst h9
  obtain ⟨op, ot, ob, sr⟩ := st
  cases sr with
  | true => rfl
  | false =>
    cases op with
    | none => rfl
    | some p0 =>
      cases ot with
      | none => rfl
      | some pTr =>
        cases ob with
        | none => rfl
        | some pBl =>
          cases hcs : compute_cell_size
              (MacroState.mk (some p0) (some pTr) (some pBl) false) cfg with
          | none =>
            simp only [ run_macro, hcs]
          | some pq =>
            obtain ⟨cw, ch⟩ := pq
            simp only [ run_macro, hcs]
            by_cases hg : cw = 0 ∨ ch = 0
            · rw [if_pos hg, if_pos hg]
            · rw [if_neg hg, if_neg hg,
                clickLoop_ignores_pTR_pBL t1 b1 u1 p1 pt1 pb1 pt2 pb2
                  jx1 jy1 b01 bs1 f1 cw ch cfg.scan_order]

/-- Witness for the amended C4: two runs differing only in their mid-run
pTR/pBL histories produce identical outputs. -/
theorem C4_run_snapshot_except_p00_witness :
    run_macro stWide cfgWide envWideA g0 = run_macro stWide cfgWide envWideC g0 :=
  C4_run_snapshot_except_p00 stWide cfgWide envWideA envWideC g0
    rfl rfl rfl rfl rfl rfl rfl rfl rfl

/-- Counterexample to C4 as stated: two executions from the same
calibration, config and randomness, where in the second a calibration
capture overwrites p00 with (100,100) after step 0, produce different
traces — the step-1 moveTo targets differ — because the loop re-reads
state["p00"] each iteration instead of using a snapshot. -/
theorem C4_p00_reread_counterexample :
    ( run_macro stWide cfgWide envWideA g0).2.1 ≠
      ( run_macro stWide cfgWide envWideB g0).2.1 := by
  have hA := run_macro_eq_loop stWide cfgWide envWideA g0 (Point.mk 0 0)
    (Point.mk 4 0) (Point.mk 0 2) rfl rfl rfl rfl (by decide) (by decide)
    (by decide) (by decide)
  have hB := run_macro_eq_loop stWide cfgWide envWideB g0 (Point.mk 0 0)
    (Point.mk 4 0) (Point.mk 0 2) rfl rfl rfl rfl (by decide) (by decide)
    (by decide) (by decide)
  rw [hA, hB]
  intro h
  have h6 : some (Ev.move
      ((cellCenter (Point.mk 0 0) (((4 : Int) : ℚ) / ((2 : Nat) : ℚ))
          (((2 : Int) : ℚ) / ((1 : Nat) : ℚ)) 0 1).1 + ((0 : Int) : ℚ))
      ((cellCenter (Point.mk 0 0) (((4 : Int) : ℚ) / ((2 : Nat) : ℚ))
          (((2 : Int) : ℚ) / ((1 : Nat) : ℚ)) 0 1).2 + ((0 : Int) : ℚ))) =
    some (Ev.move
      ((cellCenter (Point.mk 100 100) (((4 : Int) : ℚ) / ((2 : Nat) : ℚ))
          (((2 : Int) : ℚ) / ((1 : Nat) : ℚ)) 0 1).1 + ((0 : Int) : ℚ))
      ((cellCenter (Point.mk 100 100) (((4 : Int) : ℚ) / ((2 : Nat) : ℚ))
          (((2 : Int) : ℚ) / ((1 : Nat) : ℚ)) 0 1).2 + ((0 : Int) : ℚ))) :=
    congrArg (fun l => l[6]?) h
  have h7 := Option.some.inj h6
  injection h7 with hx hy
  rw [cellCenter, cellCenter] at hx
  simp only at hx
  norm_num at hx
